import Mathlib

/-!
Formal model of `scripts/fan_control.py`, the single source file of the
linux-nvidia-fancontrol repository.

Pure pieces of the script are translated directly:
  * `read_config` works over the list of lines of the config file
    (file I/O is external); the Python dict is modelled as an
    insertion-ordered association list with overwrite-in-place semantics.
  * `dict_to_ranges` is `sorted(list(d.items()), key=lambda x: x[0])`.
  * `compute_fan_speed` returns `Option Int`; `none` models the IndexError
    raised by `temp_fan[0]` on an empty list.
  * `set_fan_speed` is reduced to the actuation decision it takes before
    shelling out.
  * `get_temp_fan_speed` has its two regex searches over the
    `nvidia-settings` output abstracted as oracle inputs (the matched
    integer, when any); `main_loop` is the `while True` polling loop of
    `__main__`, run on fuel over a stream of such oracle results.
Exceptions are modelled with `Option`/`Except`.
-/

/-- ASCII whitespace as recognised by Python `str.strip()` / `str.split()`. -/
def pyIsSpace (c : Char) : Bool :=
  c = ' ' || c = '\t' || c = '\n' || c = '\r' || c = '\x0b' || c = '\x0c'

/-- Python `str.strip()`: drop leading and trailing whitespace. -/
def stripWs (cs : List Char) : List Char :=
  ((cs.dropWhile pyIsSpace).reverse.dropWhile pyIsSpace).reverse

/-- Helper for `splitWs`, accumulating the current token in reverse. -/
def splitWsAux : List Char → List Char → List (List Char)
  | [], acc => if acc.isEmpty then [] else [acc.reverse]
  | c :: rest, acc =>
    if pyIsSpace c then
      if acc.isEmpty then splitWsAux rest []
      else acc.reverse :: splitWsAux rest []
    else splitWsAux rest (c :: acc)

/-- Python `str.split()` with no separator: split on runs of whitespace,
discarding leading and trailing whitespace. -/
def splitWs (cs : List Char) : List (List Char) :=
  splitWsAux cs []

/-- Detects two adjacent underscores, which Python `int()` rejects. -/
def hasDoubleUnderscore : List Char → Bool
  | '_' :: '_' :: _ => true
  | _ :: rest => hasDoubleUnderscore rest
  | [] => false

/-- Digit part of a Python integer literal: `digit (["_"] digit)*`, i.e.
non-empty, only digits and underscores, first and last characters digits,
and no two adjacent underscores. -/
def digitPartOk (cs : List Char) : Bool :=
  !cs.isEmpty
    && cs.all (fun c => c.isDigit || c = '_')
    && cs.head?.elim false Char.isDigit
    && cs.getLast?.elim false Char.isDigit
    && !hasDoubleUnderscore cs

/-- Numeric value of a digit string, skipping underscores. -/
def digitsVal (cs : List Char) : Nat :=
  cs.foldl (fun a c => if c = '_' then a else a * 10 + (c.toNat - 48)) 0

/-- Python `int(token)` on a whitespace-free token: optional sign followed by
base-10 digits (single underscores allowed between digits); `none` models the
ValueError raised on any other string. -/
def pyParseInt (cs : List Char) : Option Int :=
  match cs with
  | '+' :: rest => if digitPartOk rest then some (digitsVal rest : Int) else none
  | '-' :: rest => if digitPartOk rest then some (-(digitsVal rest : Int)) else none
  | _ => if digitPartOk cs then some (digitsVal cs : Int) else none

/-- The two errors `read_config` can raise: ValueError
"Config file is not in the correct format" and ValueError
"Config file is empty". -/
inductive ConfigError where
  | formatError
  | emptyError
  deriving DecidableEq, Repr

/-- `line.startswith("#")` on the raw, unstripped line. -/
def startsWithHash (l : String) : Bool :=
  l.data.head? == some '#'

/-- One non-comment config line: `temp, speed = line.strip().split()` followed
by `int(temp)`, `int(speed)`. `none` models the ValueError path (wrong number
of tokens, or a token that is not an integer). -/
def parseLine (l : String) : Option (Int × Int) :=
  match splitWs (stripWs l.data) with
  | [a, b] =>
    match pyParseInt a, pyParseInt b with
    | some t, some s => some (t, s)
    | _, _ => none
  | _ => none

/-- Python dict assignment `config[k] = v`: overwrite in place when the key is
present (CPython keeps the key's original position), append otherwise. -/
def dictInsert (d : List (Int × Int)) (k v : Int) : List (Int × Int) :=
  if d.any (fun p => decide (p.1 = k)) then
    d.map (fun p => if p.1 = k then (k, v) else p)
  else d ++ [(k, v)]

/-- The line loop of `read_config`, carrying the config dict built so far.
A line failing to parse aborts with the format error; once all lines are
consumed, an empty dict raises the empty error. -/
def read_config_lines : List String → List (Int × Int) → Except ConfigError (List (Int × Int))
  | [], config =>
    match config with
    | [] => .error .emptyError
    | _ => .ok config
  | line :: rest, config =>
    if startsWithHash line then read_config_lines rest config
    else
      match parseLine line with
      | none => .error .formatError
      | some (t, s) => read_config_lines rest (dictInsert config t s)

/-- `read_config` on the decomposed lines of the config file. -/
def read_config (lines : List String) : Except ConfigError (List (Int × Int)) :=
  read_config_lines lines []

/-- `dict_to_ranges`: `sorted(list(temp_fan.items()), key=lambda x: x[0])`.
Dict keys are distinct, so any sort by temperature produces the same list;
insertion sort is used here. -/
def dict_to_ranges (temp_fan : List (Int × Int)) : List (Int × Int) :=
  List.insertionSort (fun a b => a.1 ≤ b.1) temp_fan

/-- The scanning loop of `compute_fan_speed`: return the tracked speed at the
first threshold exceeding `temp`, updating the tracked speed otherwise. -/
def computeLoop (temp : Int) : Int → List (Int × Int) → Int
  | lower_fan, [] => lower_fan
  | lower_fan, (t, fan) :: rest =>
    if temp < t then lower_fan else computeLoop temp fan rest

/-- `compute_fan_speed`; `none` models the IndexError of `temp_fan[0]` on an
empty list. -/
def compute_fan_speed (temp : Int) (temp_fan : List (Int × Int)) : Option Int :=
  match temp_fan with
  | [] => none
  | (t0, f0) :: _ =>
    some (computeLoop temp (if temp ≥ t0 then f0 else 0) temp_fan)

/-- The decision `set_fan_speed` takes before any side effect. -/
inductive ActuationDecision where
  | NoAction
  | SetFanSpeed (target : Int)
  deriving DecidableEq, Repr

/-- `set_fan_speed` reduced to its actuation decision: issue the
`nvidia-settings` command exactly when `abs(current - computed) > 5`. -/
def set_fan_speed (current_fan computed_fan : Int) : ActuationDecision :=
  if 5 < |current_fan - computed_fan| then .SetFanSpeed computed_fan
  else .NoAction

/-- `get_temp_fan_speed`, with the two regex searches over the
`nvidia-settings` output abstracted as oracle results (the matched integer,
if any). The temperature match is checked first, as in the source. -/
def get_temp_fan_speed (match_temp match_fan : Option Int) : Except String (Int × Int) :=
  match match_temp with
  | none => .error "Could not parse temperature."
  | some t =>
    match match_fan with
    | none => .error "Could not parse fan speed."
    | some f => .ok (t, f)

/-- The `while True` loop of `__main__`, run for `fuel` cycles over a stream
of sensor oracle results. There is no try/except around the body, so the
first error escapes the loop; completed cycles' decisions are returned. -/
def main_loop (temp_fan : List (Int × Int)) :
    (Nat → Option Int × Option Int) → Nat → Except String (List ActuationDecision)
  | _, 0 => .ok []
  | readings, fuel + 1 =>
    match get_temp_fan_speed (readings 0).1 (readings 0).2 with
    | .error e => .error e
    | .ok (temp, fan) =>
      match compute_fan_speed temp temp_fan with
      | none => .error "IndexError: list index out of range"
      | some computed =>
        (main_loop temp_fan (fun n => readings (n + 1)) fuel).map
          (fun ds => set_fan_speed fan computed :: ds)

/-- The parsed entries of the non-comment lines, in file order. -/
def entriesOf (lines : List String) : List (Int × Int) :=
  (lines.filter (fun l => !startsWithHash l)).filterMap parseLine

/-- Dict lookup `d.get(k)` on the association-list model. -/
def dget (d : List (Int × Int)) (k : Int) : Option Int :=
  (d.find? (fun p => decide (p.1 = k))).map Prod.snd

/-- The value of the last assignment to key `k` in a list of assignments. -/
def dgetRev (entries : List (Int × Int)) (k : Int) : Option Int :=
  (entries.reverse.find? (fun p => decide (p.1 = k))).map Prod.snd


/-! ### Characterisation of the compute_fan_speed scan -/

/-- Speed of the last threshold in a list, with default `d` when empty. -/
def lastSpeedD (d : Int) : List (Int × Int) → Int
  | [] => d
  | (_, f) :: rest => lastSpeedD f rest

lemma lastSpeedD_of_ne_nil (d₁ d₂ : Int) (l : List (Int × Int)) (h : l ≠ []) :
    lastSpeedD d₁ l = lastSpeedD d₂ l := by
  cases l with
  | nil => exact absurd rfl h
  | cons a rest => obtain ⟨t, f⟩ := a; rfl

lemma lastSpeedD_mem (l : List (Int × Int)) : ∀ d : Int,
    lastSpeedD d l = d ∨ ∃ e ∈ l, lastSpeedD d l = e.2 := by
  induction l with
  | nil => intro d; exact Or.inl rfl
  | cons a rest ih =>
    intro d
    obtain ⟨t, f⟩ := a
    rcases ih f with h | ⟨e, he, h⟩
    · exact Or.inr ⟨(t, f), by simp, by simpa [lastSpeedD] using h⟩
    · exact Or.inr ⟨e, by simp [he], by simpa [lastSpeedD] using h⟩

lemma lastSpeedD_append (u w : List (Int × Int)) : ∀ d : Int,
    lastSpeedD d (u ++ w) = lastSpeedD (lastSpeedD d u) w := by
  induction u with
  | nil => intro d; rfl
  | cons a rest ih =>
    intro d
    obtain ⟨t, f⟩ := a
    simpa [lastSpeedD] using ih f

lemma lastSpeedD_eq_getLast (c : List (Int × Int)) : ∀ (hne : c ≠ []) (d : Int),
    lastSpeedD d c = (c.getLast hne).2 := by
  induction c with
  | nil => intro h; exact absurd rfl h
  | cons a r ih =>
    intro _ d
    obtain ⟨t0, f0⟩ := a
    cases r with
    | nil => simp [lastSpeedD, List.getLast]
    | cons b r' =>
      simpa [lastSpeedD, List.getLast_cons] using ih (by simp) f0

lemma computeLoop_eq_lastSpeedD (temp : Int) (l : List (Int × Int)) : ∀ lf : Int,
    computeLoop temp lf l = lastSpeedD lf (l.takeWhile (fun e => decide (e.1 ≤ temp))) := by
  induction l with
  | nil => intro lf; rfl
  | cons a rest ih =>
    intro lf
    obtain ⟨t, f⟩ := a
    by_cases h : temp < t
    · have ht : ¬ t ≤ temp := not_le.mpr h
      simp [computeLoop, List.takeWhile_cons, h, ht, lastSpeedD]
    · have ht : t ≤ temp := not_lt.mp h
      simp [computeLoop, List.takeWhile_cons, h, ht, lastSpeedD, ih f]

lemma compute_fan_speed_eq (temp : Int) (c : List (Int × Int)) (hne : c ≠ []) :
    compute_fan_speed temp c
      = some (lastSpeedD 0 (c.takeWhile (fun e => decide (e.1 ≤ temp)))) := by
  cases c with
  | nil => exact absurd rfl hne
  | cons a rest =>
    obtain ⟨t0, f0⟩ := a
    by_cases h : t0 ≤ temp
    · simp [compute_fan_speed, computeLoop_eq_lastSpeedD, List.takeWhile_cons, h,
        lastSpeedD, ge_iff_le]
    · have h2 : temp < t0 := not_le.mp h
      simp [compute_fan_speed, computeLoop_eq_lastSpeedD, List.takeWhile_cons, h,
        lastSpeedD, ge_iff_le]

lemma takeWhile_eq_self_of_all {α : Type _} (p : α → Bool) (l : List α)
    (h : ∀ e ∈ l, p e = true) : l.takeWhile p = l := by
  induction l with
  | nil => rfl
  | cons a r ih =>
    have ha := h a (by simp)
    simp [List.takeWhile_cons, ha, ih (fun e he => h e (by simp [he]))]

lemma takeWhile_imp_append {α : Type _} (p q : α → Bool)
    (himp : ∀ x, p x = true → q x = true) (l : List α) :
    ∃ w, l.takeWhile q = l.takeWhile p ++ w := by
  induction l with
  | nil => exact ⟨[], rfl⟩
  | cons a r ih =>
    by_cases hp : p a = true
    · obtain ⟨w, hw⟩ := ih
      exact ⟨w, by simp [List.takeWhile_cons, hp, himp a hp, hw]⟩
    · refine ⟨(a :: r).takeWhile q, ?_⟩
      simp [List.takeWhile_cons, hp]

lemma tw_greatest (t : Int) (c : List (Int × Int)) :
    c.Pairwise (fun a b => a.1 < b.1) →
    ∀ e ∈ c, e.1 ≤ t → (∀ x ∈ c, x.1 ≤ t → x.1 ≤ e.1) →
    lastSpeedD 0 (c.takeWhile (fun x => decide (x.1 ≤ t))) = e.2 := by
  induction c with
  | nil => intro _ e he; exact absurd he (by simp)
  | cons a r ih =>
    intro hp e he het hmax
    rw [List.pairwise_cons] at hp
    obtain ⟨ha, hr⟩ := hp
    rcases List.mem_cons.mp he with rfl | her
    · have hpa : decide (e.1 ≤ t) = true := decide_eq_true het
      have hr0 : r.takeWhile (fun x => decide (x.1 ≤ t)) = [] := by
        cases r with
        | nil => rfl
        | cons b r' =>
          have hb : ¬ b.1 ≤ t := by
            intro hbt
            have h1 := hmax b (by simp) hbt
            have h2 := ha b (by simp)
            omega
          simp [List.takeWhile_cons, hb]
      obtain ⟨te, fe⟩ := e
      simp [List.takeWhile_cons, hpa, hr0, lastSpeedD]
    · have hae : a.1 < e.1 := ha e her
      have hpa : decide (a.1 ≤ t) = true := decide_eq_true (le_of_lt (lt_of_le_of_lt' het hae))
      have ihr := ih hr e her het (fun x hx hxt => hmax x (by simp [hx]) hxt)
      have hne : r.takeWhile (fun x => decide (x.1 ≤ t)) ≠ [] := by
        cases r with
        | nil => exact absurd her (by simp)
        | cons b r' =>
          have hb : b.1 ≤ t := by
            rw [List.pairwise_cons] at hr
            rcases List.mem_cons.mp her with rfl | her'
            · exact het
            · exact le_of_lt (lt_of_le_of_lt' het (hr.1 e her'))
          simp [List.takeWhile_cons, hb]
      obtain ⟨ta, fa⟩ := a
      rw [List.takeWhile_cons, if_pos hpa]
      show lastSpeedD fa _ = e.2
      rw [lastSpeedD_of_ne_nil fa 0 _ hne, ihr]

/-! ### Claims about compute_fan_speed and set_fan_speed -/

/-- C1: for every non-empty curve sorted (strictly) by temperature and every
integer temperature `t`, `compute_fan_speed` returns the fan speed of the
greatest threshold whose temperature is at most `t`; it returns `0` when `t`
is strictly below every threshold, and the highest threshold's speed when `t`
is at or above every threshold. -/
theorem compute_fan_speed_lower_bound_step (t : Int) (c : List (Int × Int))
    (hne : c ≠ []) (hsorted : c.Pairwise (fun a b => a.1 < b.1)) :
    (∀ e ∈ c, e.1 ≤ t → (∀ x ∈ c, x.1 ≤ t → x.1 ≤ e.1) →
      compute_fan_speed t c = some e.2)
    ∧ ((∀ e ∈ c, t < e.1) → compute_fan_speed t c = some 0)
    ∧ ((∀ e ∈ c, e.1 ≤ t) → compute_fan_speed t c = some ((c.getLast hne).2)) := by
  refine ⟨?_, ?_, ?_⟩
  · intro e he het hmax
    rw [compute_fan_speed_eq t c hne, tw_greatest t c hsorted e he het hmax]
  · intro h
    rw [compute_fan_speed_eq t c hne]
    cases c with
    | nil => exact absurd rfl hne
    | cons a r =>
      have ha : ¬ a.1 ≤ t := not_le.mpr (h a (by simp))
      simp [List.takeWhile_cons, ha, lastSpeedD]
  · intro h
    rw [compute_fan_speed_eq t c hne,
      takeWhile_eq_self_of_all _ c (fun e he => decide_eq_true (h e he)),
      lastSpeedD_eq_getLast c hne 0]

/-- Witness for C1 at the spec's example curve and temperature 70. -/
theorem compute_fan_speed_lower_bound_step_witness :
    compute_fan_speed 70 [(40, 30), (60, 50), (80, 80)] = some 50 :=
  (compute_fan_speed_lower_bound_step 70 [(40, 30), (60, 50), (80, 80)]
      (by decide) (by decide)).1
    (60, 50) (by decide) (by decide) (by decide)

/-- C8: on a validated non-empty sorted curve, `compute_fan_speed` is total
(no IndexError on the first-element read: the result is `some`), and the
returned speed is `0` or one of the speeds configured in the curve, never an
interpolated value. -/
theorem compute_fan_speed_total_in_range (t : Int) (c : List (Int × Int))
    (hne : c ≠ []) (hsorted : c.Pairwise (fun a b => a.1 < b.1)) :
    (compute_fan_speed t c).isSome = true
    ∧ ∀ s, compute_fan_speed t c = some s → s = 0 ∨ s ∈ c.map Prod.snd := by
  constructor
  · rw [compute_fan_speed_eq t c hne]; rfl
  · intro s hs
    rw [compute_fan_speed_eq t c hne] at hs
    have hs2 : lastSpeedD 0 (c.takeWhile (fun e => decide (e.1 ≤ t))) = s :=
      Option.some.inj hs
    rcases lastSpeedD_mem (c.takeWhile (fun e => decide (e.1 ≤ t))) 0 with h | ⟨e, he, h⟩
    · left; omega
    · right
      have hec : e ∈ c := (List.takeWhile_sublist _).subset he
      rw [← hs2, h]
      exact List.mem_map_of_mem Prod.snd hec

/-- Witness for C8 at temperature 35 on the one-step curve [(40, 30)]. -/
theorem compute_fan_speed_total_in_range_witness :
    (compute_fan_speed 35 [((40 : Int), (30 : Int))]).isSome = true :=
  (compute_fan_speed_total_in_range 35 [(40, 30)] (by decide) (by decide)).1

/-- C2 counterexample: the curve parsed from lines "10 90", "20 30" is a
valid (parsed, sorted, non-empty) curve, yet raising the temperature from 15
to 25 lowers the computed fan speed from 90 to 30. -/
theorem compute_fan_speed_not_monotone :
    read_config ["10 90", "20 30"] = .ok [(10, 90), (20, 30)]
    ∧ dict_to_ranges [(10, 90), (20, 30)] = [(10, 90), (20, 30)]
    ∧ compute_fan_speed 15 [(10, 90), (20, 30)] = some 90
    ∧ compute_fan_speed 25 [(10, 90), (20, 30)] = some 30
    ∧ (15 : Int) ≤ 25
    ∧ ¬ ((90 : Int) ≤ 30) :=
  ⟨rfl, by decide, rfl, rfl, by decide, by decide⟩

/-- C2 amended: monotonicity holds on a non-empty temperature-sorted curve
whose configured speeds are non-negative and non-decreasing along the curve:
raising the temperature never lowers the computed fan speed. -/
theorem compute_fan_speed_monotone (c : List (Int × Int)) (hne : c ≠ [])
    (hsorted : c.Pairwise (fun a b => a.1 ≤ b.1))
    (hspeeds : c.Pairwise (fun a b => a.2 ≤ b.2))
    (hnonneg : ∀ e ∈ c, 0 ≤ e.2)
    (t1 t2 : Int) (h12 : t1 ≤ t2) (s1 s2 : Int)
    (h1 : compute_fan_speed t1 c = some s1)
    (h2 : compute_fan_speed t2 c = some s2) : s1 ≤ s2 := by
  rw [compute_fan_speed_eq t1 c hne] at h1
  rw [compute_fan_speed_eq t2 c hne] at h2
  have hs1 := Option.some.inj h1
  have hs2 := Option.some.inj h2
  obtain ⟨w, hw⟩ := takeWhile_imp_append (fun e : Int × Int => decide (e.1 ≤ t1))
    (fun e => decide (e.1 ≤ t2))
    (fun x hx => decide_eq_true (le_trans (of_decide_eq_true hx) h12)) c
  rw [hw, lastSpeedD_append] at hs2
  rw [hs1] at hs2
  have hWc : ∀ e ∈ w, e ∈ c := by
    intro e he
    have hmem : e ∈ c.takeWhile (fun e => decide (e.1 ≤ t2)) := by
      rw [hw]; exact List.mem_append_right _ he
    exact (List.takeWhile_sublist _).subset hmem
  rcases lastSpeedD_mem w s1 with h | ⟨e, he, h⟩
  · omega
  · rw [← hs2, h]
    rcases lastSpeedD_mem (c.takeWhile (fun e => decide (e.1 ≤ t1))) 0 with h0 | ⟨x, hx, h0⟩
    · rw [← hs1, h0]
      exact hnonneg e (hWc e he)
    · rw [← hs1, h0]
      have hpw : (c.takeWhile (fun e => decide (e.1 ≤ t2))).Pairwise
          (fun a b => a.2 ≤ b.2) :=
        hspeeds.sublist (List.takeWhile_sublist _)
      rw [hw] at hpw
      exact (List.pairwise_append.mp hpw).2.2 x hx e he

/-- Witness for the amended C2 on the curve [(40, 30), (60, 50)] with
temperatures 50 and 65. -/
theorem compute_fan_speed_monotone_witness :
    compute_fan_speed 50 [((40 : Int), (30 : Int)), (60, 50)] = some 30
    ∧ (30 : Int) ≤ 50 :=
  ⟨rfl, compute_fan_speed_monotone [(40, 30), (60, 50)] (by decide) (by decide)
    (by decide) (by decide) 50 65 (by decide) 30 50 rfl rfl⟩

/-- C3: the actuation decision is SetFanSpeed(computed) exactly when
|current - computed| > 5, and NoAction otherwise; in particular 50 vs 53 and
50 vs 55 issue no command, while 50 vs 56 sets the fan to 56. -/
theorem set_fan_speed_hysteresis :
    (∀ cur comp : Int,
      (set_fan_speed cur comp = .SetFanSpeed comp ↔ 5 < |cur - comp|)
      ∧ (set_fan_speed cur comp = .NoAction ↔ |cur - comp| ≤ 5))
    ∧ set_fan_speed 50 53 = .NoAction
    ∧ set_fan_speed 50 55 = .NoAction
    ∧ set_fan_speed 50 56 = .SetFanSpeed 56 := by
  refine ⟨?_, by decide, by decide, by decide⟩
  intro cur comp
  unfold set_fan_speed
  by_cases h : 5 < |cur - comp|
  · rw [if_pos h]
    exact ⟨iff_of_true rfl h,
      iff_of_false (fun hx => ActuationDecision.noConfusion hx) (not_le.mpr h)⟩
  · rw [if_neg h]
    exact ⟨iff_of_false (fun hx => ActuationDecision.noConfusion hx) h,
      iff_of_true rfl (not_lt.mp h)⟩

/-! ### The dict model of read_config -/

lemma entriesOf_cons_comment (line : String) (rest : List String)
    (h : startsWithHash line = true) :
    entriesOf (line :: rest) = entriesOf rest := by
  unfold entriesOf
  simp [List.filter_cons, h]

lemma entriesOf_cons_parsed (line : String) (rest : List String) (e : Int × Int)
    (h : startsWithHash line = false) (hp : parseLine line = some e) :
    entriesOf (line :: rest) = e :: entriesOf rest := by
  unfold entriesOf
  simp [List.filter_cons, h, List.filterMap_cons, hp]

lemma dget_cons_pos (a : Int × Int) (r : List (Int × Int)) (t : Int) (h : a.1 = t) :
    dget (a :: r) t = some a.2 := by
  unfold dget
  rw [List.find?_cons_of_pos _ (by simp [h])]
  rfl

lemma dget_cons_neg (a : Int × Int) (r : List (Int × Int)) (t : Int) (h : a.1 ≠ t) :
    dget (a :: r) t = dget r t := by
  unfold dget
  rw [List.find?_cons_of_neg _ (by simp [h])]

lemma dget_overwrite_eq (d : List (Int × Int)) (k v : Int) :
    dget (d.map (fun p => if p.1 = k then (k, v) else p)) k
      = (dget d k).map (fun _ => v) := by
  induction d with
  | nil => rfl
  | cons a r ih =>
    by_cases h : a.1 = k
    · rw [List.map_cons, if_pos h, dget_cons_pos (k, v) _ k rfl, dget_cons_pos a r k h]
      rfl
    · rw [List.map_cons, if_neg h, dget_cons_neg a _ k h, dget_cons_neg a r k h]
      exact ih

lemma dget_overwrite_ne (d : List (Int × Int)) (k v t : Int) (hne : t ≠ k) :
    dget (d.map (fun p => if p.1 = k then (k, v) else p)) t = dget d t := by
  induction d with
  | nil => rfl
  | cons a r ih =>
    by_cases h : a.1 = k
    · rw [List.map_cons, if_pos h, dget_cons_neg (k, v) _ t (fun hk => hne hk.symm),
        dget_cons_neg a r t (by rw [h]; exact fun hk => hne hk.symm)]
      exact ih
    · by_cases h2 : a.1 = t
      · rw [List.map_cons, if_neg h, dget_cons_pos a _ t h2, dget_cons_pos a r t h2]
      · rw [List.map_cons, if_neg h, dget_cons_neg a _ t h2, dget_cons_neg a r t h2]
        exact ih

lemma any_key_iff (d : List (Int × Int)) (k : Int) :
    d.any (fun p => decide (p.1 = k)) = true ↔ (dget d k).isSome = true := by
  have h1 : ((d.find? fun p => decide (p.1 = k)).map Prod.snd).isSome
      = (d.find? fun p => decide (p.1 = k)).isSome := by
    cases d.find? fun p => decide (p.1 = k) <;> rfl
  unfold dget
  rw [h1]
  simp [List.any_eq_true, List.find?_isSome]

lemma dget_isSome_iff_mem (d : List (Int × Int)) (t : Int) :
    (dget d t).isSome = true ↔ t ∈ d.map Prod.fst := by
  have h1 : ((d.find? fun p => decide (p.1 = t)).map Prod.snd).isSome
      = (d.find? fun p => decide (p.1 = t)).isSome := by
    cases d.find? fun p => decide (p.1 = t) <;> rfl
  unfold dget
  rw [h1]
  simp [List.find?_isSome, List.mem_map]

lemma dgetRev_isSome_iff_mem (entries : List (Int × Int)) (t : Int) :
    (dgetRev entries t).isSome = true ↔ t ∈ entries.map Prod.fst := by
  have h1 : ((entries.reverse.find? fun p => decide (p.1 = t)).map Prod.snd).isSome
      = (entries.reverse.find? fun p => decide (p.1 = t)).isSome := by
    cases entries.reverse.find? fun p => decide (p.1 = t) <;> rfl
  unfold dgetRev
  rw [h1]
  simp [List.find?_isSome, List.mem_map]

lemma dget_dictInsert (d : List (Int × Int)) (k v t : Int) :
    dget (dictInsert d k v) t = if t = k then some v else dget d t := by
  unfold dictInsert
  by_cases hany : d.any (fun p => decide (p.1 = k)) = true
  · rw [if_pos hany]
    by_cases ht : t = k
    · subst ht
      rw [dget_overwrite_eq d t v, if_pos rfl]
      obtain ⟨x, hx⟩ := Option.isSome_iff_exists.mp ((any_key_iff d t).mp hany)
      rw [hx]
      rfl
    · rw [dget_overwrite_ne d k v t ht, if_neg ht]
  · rw [if_neg hany]
    by_cases ht : t = k
    · subst ht
      have hnone : d.find? (fun p => decide (p.1 = t)) = none := by
        rw [List.find?_eq_none]
        intro x hx hpx
        exact hany (List.any_eq_true.mpr ⟨x, hx, hpx⟩)
      unfold dget
      rw [List.find?_append, hnone, if_pos rfl, List.find?_cons_of_pos _ (by simp)]
      rfl
    · have h2 : List.find? (fun p => decide (p.1 = t)) [(k, v)] = none := by
        rw [List.find?_eq_none]
        intro x hx
        simp only [List.mem_singleton] at hx
        subst hx
        simpa using decide_eq_false (Ne.symm ht)
      unfold dget
      rw [List.find?_append, h2, Option.or_none, if_neg ht]

lemma keys_dictInsert (d : List (Int × Int)) (k v : Int) :
    (dictInsert d k v).map Prod.fst
      = if d.any (fun p => decide (p.1 = k)) = true then d.map Prod.fst
        else d.map Prod.fst ++ [k] := by
  unfold dictInsert
  by_cases h : d.any (fun p => decide (p.1 = k)) = true
  · rw [if_pos h, if_pos h, List.map_map]
    refine List.map_congr_left ?_
    intro p _
    by_cases hp : p.1 = k
    · simp [hp]
    · simp [hp]
  · rw [if_neg h, if_neg h, List.map_append]
    rfl

lemma nodup_keys_dictInsert (d : List (Int × Int)) (k v : Int)
    (h : (d.map Prod.fst).Nodup) : ((dictInsert d k v).map Prod.fst).Nodup := by
  rw [keys_dictInsert]
  by_cases hany : d.any (fun p => decide (p.1 = k)) = true
  · rw [if_pos hany]
    exact h
  · rw [if_neg hany]
    have hk : k ∉ d.map Prod.fst := by
      intro hmem
      apply hany
      rw [List.any_eq_true]
      obtain ⟨p, hp, hpk⟩ := List.mem_map.mp hmem
      exact ⟨p, hp, by simp [hpk]⟩
    simp [List.nodup_append, h, hk]

lemma dictInsert_ne_nil (d : List (Int × Int)) (k v : Int) :
    dictInsert d k v ≠ [] := by
  unfold dictInsert
  by_cases hany : d.any (fun p => decide (p.1 = k)) = true
  · rw [if_pos hany]
    intro hmap
    cases d with
    | nil => simp [List.any_nil] at hany
    | cons a r => simp at hmap
  · rw [if_neg hany]
    intro happ
    exact absurd (List.append_eq_nil.mp happ).2 (by simp)

lemma dgetRev_cons (e : Int × Int) (entries : List (Int × Int)) (k : Int) :
    dgetRev (e :: entries) k
      = (dgetRev entries k).or (if e.1 = k then some e.2 else none) := by
  unfold dgetRev
  rw [List.reverse_cons, List.find?_append]
  by_cases h : e.1 = k
  · cases hf : entries.reverse.find? (fun p => decide (p.1 = k)) <;>
      simp [hf, h, Option.or, List.find?_cons_of_pos _ (by simp [h] : decide (e.1 = k) = true)]
  · cases hf : entries.reverse.find? (fun p => decide (p.1 = k)) <;>
      simp [hf, h, Option.or, List.find?_cons_of_neg _ (by simp [h] : ¬ decide (e.1 = k) = true)]

/-! ### Invariants of the read_config line loop -/

lemma read_config_lines_ok (lines : List String) : ∀ cfg d : List (Int × Int),
    read_config_lines lines cfg = .ok d → ∀ t : Int,
    dget d t = (dgetRev (entriesOf lines) t).or (dget cfg t) := by
  induction lines with
  | nil =>
    intro cfg d h t
    cases cfg with
    | nil => exact absurd h (by simp [read_config_lines])
    | cons a r =>
      have hd : d = a :: r := (Except.ok.inj h).symm
      subst hd
      simp [entriesOf, dgetRev, Option.or]
  | cons line rest ih =>
    intro cfg d h t
    by_cases hc : startsWithHash line = true
    · unfold read_config_lines at h
      rw [if_pos hc] at h
      rw [entriesOf_cons_comment line rest hc]
      exact ih cfg d h t
    · unfold read_config_lines at h
      rw [if_neg hc] at h
      cases hp : parseLine line with
      | none =>
        rw [hp] at h
        exact absurd h (by simp)
      | some e =>
        obtain ⟨tp, sp⟩ := e
        rw [hp] at h
        rw [ih (dictInsert cfg tp sp) d h t,
          entriesOf_cons_parsed line rest (tp, sp) (Bool.eq_false_iff.mpr hc) hp,
          dgetRev_cons, dget_dictInsert, Option.or_assoc]
        congr 1
        by_cases ht : t = tp
        · subst ht
          rw [if_pos rfl, if_pos rfl]
          rfl
        · rw [if_neg (fun hh : tp = t => ht hh.symm), if_neg ht]
          rw [Option.none_or]

lemma read_config_lines_nodup (lines : List String) : ∀ cfg d : List (Int × Int),
    read_config_lines lines cfg = .ok d →
    (cfg.map Prod.fst).Nodup → (d.map Prod.fst).Nodup := by
  induction lines with
  | nil =>
    intro cfg d h hnd
    cases cfg with
    | nil => exact absurd h (by simp [read_config_lines])
    | cons a r =>
      have hd : d = a :: r := (Except.ok.inj h).symm
      subst hd
      exact hnd
  | cons line rest ih =>
    intro cfg d h hnd
    by_cases hc : startsWithHash line = true
    · unfold read_config_lines at h
      rw [if_pos hc] at h
      exact ih cfg d h hnd
    · unfold read_config_lines at h
      rw [if_neg hc] at h
      cases hp : parseLine line with
      | none =>
        rw [hp] at h
        exact absurd h (by simp)
      | some e =>
        obtain ⟨tp, sp⟩ := e
        rw [hp] at h
        exact ih (dictInsert cfg tp sp) d h (nodup_keys_dictInsert cfg tp sp hnd)

lemma read_config_lines_format (lines : List String) : ∀ cfg : List (Int × Int),
    read_config_lines lines cfg = .error .formatError
      ↔ ∃ l ∈ lines, startsWithHash l = false ∧ parseLine l = none := by
  induction lines with
  | nil =>
    intro cfg
    cases cfg <;> simp [read_config_lines]
  | cons line rest ih =>
    intro cfg
    by_cases hc : startsWithHash line = true
    · unfold read_config_lines
      rw [if_pos hc, ih cfg]
      constructor
      · rintro ⟨l, hl, h1, h2⟩
        exact ⟨l, List.mem_cons_of_mem line hl, h1, h2⟩
      · rintro ⟨l, hl, h1, h2⟩
        rcases List.mem_cons.mp hl with rfl | hl2
        · rw [hc] at h1
          exact absurd h1 (by simp)
        · exact ⟨l, hl2, h1, h2⟩
    · unfold read_config_lines
      rw [if_neg hc]
      cases hp : parseLine line with
      | none =>
        refine iff_of_true rfl ⟨line, List.mem_cons_self line rest,
          Bool.eq_false_iff.mpr hc, hp⟩
      | some e =>
        obtain ⟨tp, sp⟩ := e
        rw [ih (dictInsert cfg tp sp)]
        constructor
        · rintro ⟨l, hl, h1, h2⟩
          exact ⟨l, List.mem_cons_of_mem line hl, h1, h2⟩
        · rintro ⟨l, hl, h1, h2⟩
          rcases List.mem_cons.mp hl with rfl | hl2
          · rw [hp] at h2
            exact absurd h2 (by simp)
          · exact ⟨l, hl2, h1, h2⟩

lemma read_config_lines_empty (lines : List String) : ∀ cfg : List (Int × Int),
    read_config_lines lines cfg = .error .emptyError
      ↔ (∀ l ∈ lines, startsWithHash l = true) ∧ cfg = [] := by
  induction lines with
  | nil =>
    intro cfg
    cases cfg with
    | nil => simp [read_config_lines]
    | cons a r => simp [read_config_lines]
  | cons line rest ih =>
    intro cfg
    by_cases hc : startsWithHash line = true
    · unfold read_config_lines
      rw [if_pos hc, ih cfg]
      constructor
      · rintro ⟨h1, h2⟩
        refine ⟨?_, h2⟩
        intro l hl
        rcases List.mem_cons.mp hl with rfl | hl2
        · exact hc
        · exact h1 l hl2
      · rintro ⟨h1, h2⟩
        exact ⟨fun l hl => h1 l (List.mem_cons_of_mem line hl), h2⟩
    · unfold read_config_lines
      rw [if_neg hc]
      cases hp : parseLine line with
      | none =>
        refine iff_of_false (by simp) ?_
        rintro ⟨h1, _⟩
        exact hc (h1 line (List.mem_cons_self line rest))
      | some e =>
        obtain ⟨tp, sp⟩ := e
        rw [ih (dictInsert cfg tp sp)]
        refine iff_of_false ?_ ?_
        · rintro ⟨_, h2⟩
          exact dictInsert_ne_nil cfg tp sp h2
        · rintro ⟨h1, _⟩
          exact hc (h1 line (List.mem_cons_self line rest))

lemma read_config_format_iff (lines : List String) :
    read_config lines = .error .formatError
      ↔ ∃ l ∈ lines, startsWithHash l = false ∧ parseLine l = none :=
  read_config_lines_format lines []

lemma read_config_ok_dget (lines : List String) (d : List (Int × Int))
    (h : read_config lines = .ok d) (t : Int) :
    dget d t = dgetRev (entriesOf lines) t := by
  have h1 := read_config_lines_ok lines [] d h t
  rwa [show dget [] t = none from rfl, Option.or_none] at h1

/-! ### Line shape lemmas for the parser claims -/

lemma pyParseInt_hash (tl : List Char) : pyParseInt ('#' :: tl) = none := rfl

lemma parseLine_blank (l : String) (h : stripWs l.data = []) : parseLine l = none := by
  unfold parseLine
  rw [h]
  rfl

lemma splitWsAux_acc_head : ∀ (cs acc : List Char), acc ≠ [] →
    ∃ tok rest tail, splitWsAux cs acc = tok :: rest ∧ tok = acc.reverse ++ tail := by
  intro cs
  induction cs with
  | nil =>
    intro acc hacc
    refine ⟨acc.reverse, [], [], ?_, by simp⟩
    unfold splitWsAux
    rw [if_neg (by simpa using hacc)]
  | cons c r ih =>
    intro acc hacc
    by_cases hs : pyIsSpace c = true
    · refine ⟨acc.reverse, splitWsAux r [], [], ?_, by simp⟩
      simp only [splitWsAux]
      rw [if_pos hs, if_neg (by simpa using hacc)]
    · obtain ⟨tok, rest, tail, heq, htok⟩ := ih (c :: acc) (by simp)
      refine ⟨tok, rest, c :: tail, ?_, ?_⟩
      · simp only [splitWsAux]
        rw [if_neg (by simp [hs])]
        exact heq
      · rw [htok]
        simp

lemma splitWs_cons_head (c : Char) (cs : List Char) (hs : pyIsSpace c = false) :
    ∃ tok rest tail, splitWs (c :: cs) = tok :: rest ∧ tok = c :: tail := by
  have h1 : splitWs (c :: cs) = splitWsAux cs [c] := by
    simp only [splitWs, splitWsAux]
    rw [if_neg (by simp [hs])]
  obtain ⟨tok, rest, tail, heq, htok⟩ := splitWsAux_acc_head cs [c] (by simp)
  refine ⟨tok, rest, tail, by rw [h1, heq], by simpa using htok⟩

lemma parseLine_strip_hash (l : String) (h : (stripWs l.data).head? = some '#') :
    parseLine l = none := by
  unfold parseLine
  cases hcs : stripWs l.data with
  | nil =>
    rw [hcs] at h
    simp at h
  | cons c cs' =>
    rw [hcs] at h
    have hc : c = '#' := by simpa using h
    subst hc
    obtain ⟨tok, rest, tail, heq, htok⟩ := splitWs_cons_head '#' cs' rfl
    rw [heq, htok]
    cases rest with
    | nil => rfl
    | cons b rest2 =>
      cases rest2 with
      | nil => rfl
      | cons d2 rest3 => rfl

/-! ### Claims about read_config and dict_to_ranges -/

/-- C4 counterexample: a blank line raises the format error instead of being
tolerated, and a line that only starts with '#' after trimming is not treated
as a comment (the comment check runs on the untrimmed line). -/
theorem blank_and_indented_comment_rejected :
    read_config [""] = .error .formatError
    ∧ read_config ["   # c"] = .error .formatError
    ∧ startsWithHash "   # c" = false
    ∧ stripWs "".data = [] :=
  ⟨rfl, rfl, rfl, rfl⟩

/-- C4 amended: whitespace is trimmed before tokenizing but not before the
comment check; any line that does not start with '#' unstripped and is blank
(whitespace-only), or whose first non-whitespace character is '#', makes
read_config raise the format error instead of being tolerated or skipped. -/
theorem read_config_untrimmed_comment_check (lines : List String) (l : String)
    (hmem : l ∈ lines) (hraw : startsWithHash l = false)
    (hl : stripWs l.data = [] ∨ (stripWs l.data).head? = some '#') :
    read_config lines = .error .formatError := by
  rw [read_config_format_iff]
  refine ⟨l, hmem, hraw, ?_⟩
  rcases hl with h | h
  · exact parseLine_blank l h
  · exact parseLine_strip_hash l h

/-- Witness for the amended C4 on a one-line config holding an indented
comment. -/
theorem read_config_untrimmed_comment_check_witness :
    startsWithHash "   # c" = false ∧ read_config ["   # c"] = .error .formatError :=
  ⟨rfl, read_config_untrimmed_comment_check ["   # c"] "   # c" (by simp) rfl (Or.inr rfl)⟩

/-- C6 counterexample: every non-comment, non-blank line of this config splits
into two integer tokens, yet read_config raises the format error, because the
blank line itself fails to split. -/
theorem blank_line_format_error :
    read_config ["10 20", "", "30 40"] = .error .formatError
    ∧ ∀ l ∈ (["10 20", "", "30 40"] : List String),
        startsWithHash l = false → stripWs l.data ≠ [] → (parseLine l).isSome = true :=
  ⟨rfl, by decide⟩

/-- C6 amended: read_config fails with the format error exactly when some
line that does not start with '#' (unstripped) fails to strip-and-split into
exactly two integer tokens — blank lines count as such failures — and on
failure no curve is produced (the result is an error, not a dict). -/
theorem read_config_format_error_iff (lines : List String) :
    read_config lines = .error .formatError
      ↔ ∃ l ∈ lines, startsWithHash l = false ∧ parseLine l = none :=
  read_config_format_iff lines

/-- C7: read_config fails with the empty-config error exactly when every line
of the file starts with '#'; in particular a config of only comment lines
raises this error rather than yielding an empty curve. -/
theorem read_config_empty_error_iff (lines : List String) :
    read_config lines = .error .emptyError
      ↔ ∀ l ∈ lines, startsWithHash l = true := by
  rw [read_config, read_config_lines_empty lines []]
  simp

/-- C5 counterexample: two non-comment, non-blank lines sharing temperature 40
parse successfully but collapse to a single dict entry, so the resulting
sequence has length 1, not 2. -/
theorem duplicate_temperature_collapses :
    read_config ["40 30", "40 50"] = .ok [(40, 50)]
    ∧ dict_to_ranges [((40 : Int), (50 : Int))] = [(40, 50)]
    ∧ (dict_to_ranges [((40 : Int), (50 : Int))]).length = 1
    ∧ ((["40 30", "40 50"] : List String).filter
        (fun l => !startsWithHash l)).length = 2 :=
  ⟨rfl, by decide, by decide, rfl⟩

lemma dict_to_ranges_sorted_le (d : List (Int × Int)) :
    (dict_to_ranges d).Pairwise (fun a b => a.1 ≤ b.1) := by
  haveI h1 : IsTotal (Int × Int) (fun a b : Int × Int => a.1 ≤ b.1) :=
    ⟨fun a b => le_total a.1 b.1⟩
  haveI h2 : IsTrans (Int × Int) (fun a b : Int × Int => a.1 ≤ b.1) :=
    ⟨fun a b c hab hbc => le_trans hab hbc⟩
  exact List.sorted_insertionSort (fun a b : Int × Int => a.1 ≤ b.1) d

lemma dict_to_ranges_perm (d : List (Int × Int)) :
    List.Perm (dict_to_ranges d) d :=
  List.perm_insertionSort _ d

lemma dict_to_ranges_sorted_lt (d : List (Int × Int))
    (hnd : (d.map Prod.fst).Nodup) :
    (dict_to_ranges d).Pairwise (fun a b => a.1 < b.1) := by
  have hle := dict_to_ranges_sorted_le d
  have hnd2 : ((dict_to_ranges d).map Prod.fst).Nodup :=
    (((dict_to_ranges_perm d).map Prod.fst).symm).nodup hnd
  have hne : (dict_to_ranges d).Pairwise (fun a b => a.1 ≠ b.1) :=
    List.pairwise_map.mp hnd2
  exact (hle.and hne).imp (fun h => lt_of_le_of_ne h.1 h.2)

lemma keys_toFinset_eq (lines : List String) (d : List (Int × Int))
    (h : read_config lines = .ok d) :
    (d.map Prod.fst).toFinset = ((entriesOf lines).map Prod.fst).toFinset := by
  ext t
  simp only [List.mem_toFinset]
  rw [← dget_isSome_iff_mem, ← dgetRev_isSome_iff_mem, read_config_ok_dget lines d h t]

/-- C5 amended: a successfully parsed config converts to a sequence sorted
strictly ascending by temperature, whose length is the number of distinct
temperatures among the parsed non-comment lines (duplicate temperatures
collapse to one entry, so the length can be less than the line count). -/
theorem read_config_roundtrip_sorted (lines : List String) (d : List (Int × Int))
    (h : read_config lines = .ok d) :
    (dict_to_ranges d).Pairwise (fun a b => a.1 < b.1)
    ∧ (dict_to_ranges d).length = ((entriesOf lines).map Prod.fst).toFinset.card := by
  have hnd : (d.map Prod.fst).Nodup :=
    read_config_lines_nodup lines [] d h (by simp)
  refine ⟨dict_to_ranges_sorted_lt d hnd, ?_⟩
  rw [(dict_to_ranges_perm d).length_eq, ← keys_toFinset_eq lines d h,
    List.toFinset_card_of_nodup hnd]
  exact (List.length_map d Prod.fst).symm

/-- Witness for the amended C5 on a two-line config. -/
theorem read_config_roundtrip_sorted_witness :
    (dict_to_ranges [((40 : Int), (30 : Int)), (60, 50)]).Pairwise
      (fun a b => a.1 < b.1) :=
  (read_config_roundtrip_sorted ["40 30", "60 50"] [(40, 30), (60, 50)] rfl).1

lemma mem_iff_dget (d : List (Int × Int)) : (d.map Prod.fst).Nodup → ∀ t s : Int,
    ((t, s) ∈ d ↔ dget d t = some s) := by
  induction d with
  | nil =>
    intro _ t s
    simp [dget]
  | cons a r ih =>
    intro hnd t s
    rw [List.map_cons, List.nodup_cons] at hnd
    by_cases ha : a.1 = t
    · rw [dget_cons_pos a r t ha]
      constructor
      · intro hm
        rcases List.mem_cons.mp hm with he | hmr
        · rw [← he]
        · exfalso
          apply hnd.1
          rw [ha]
          exact List.mem_map_of_mem Prod.fst hmr
      · intro hs
        have h2 : a = (t, a.2) := by
          rw [← ha]
        have h3 : s = a.2 := (Option.some.inj hs).symm
        subst h3
        exact List.mem_cons.mpr (Or.inl h2.symm)
    · rw [dget_cons_neg a r t ha, List.mem_cons, ← ih hnd.2 t s]
      have hne2 : ¬ ((t, s) = a) := fun he => ha (by rw [← he])
      simp [hne2]

lemma dgetRev_eq_some_iff (entries : List (Int × Int)) (t s : Int) :
    dgetRev entries t = some s
      ↔ entries.reverse.find? (fun p => decide (p.1 = t)) = some (t, s) := by
  unfold dgetRev
  cases hf : entries.reverse.find? (fun p => decide (p.1 = t)) with
  | none => simp
  | some q =>
    have hq : q.1 = t := by simpa using List.find?_some hf
    simp [Prod.ext_iff, hq]

/-- C10: a successfully parsed config contains each temperature at most once
(its keys are distinct, so the sorted curve is strictly increasing), and an
entry (t, s) is in the dict exactly when the last non-comment line assigning
temperature t assigned speed s (dict overwrite: last occurrence wins). -/
theorem read_config_last_occurrence_wins (lines : List String) (d : List (Int × Int))
    (h : read_config lines = .ok d) :
    (d.map Prod.fst).Nodup
    ∧ (dict_to_ranges d).Pairwise (fun a b => a.1 < b.1)
    ∧ ∀ t s : Int, ((t, s) ∈ d
        ↔ (entriesOf lines).reverse.find? (fun p => decide (p.1 = t)) = some (t, s)) := by
  have hnd : (d.map Prod.fst).Nodup :=
    read_config_lines_nodup lines [] d h (by simp)
  refine ⟨hnd, dict_to_ranges_sorted_lt d hnd, ?_⟩
  intro t s
  rw [mem_iff_dget d hnd t s, read_config_ok_dget lines d h t, dgetRev_eq_some_iff]

/-- Witness for C10 on a config whose two lines share temperature 40. -/
theorem read_config_last_occurrence_wins_witness :
    (([((40 : Int), (50 : Int))] : List (Int × Int)).map Prod.fst).Nodup :=
  (read_config_last_occurrence_wins ["40 30", "40 50"] [(40, 50)] rfl).1

/-! ### Claim about the control loop -/

/-- C9: when the sensor oracle first fails at cycle k (temperature or fan
speed absent from the nvidia-settings output), the resulting error propagates
out of the polling loop uncaught: any run long enough to reach cycle k ends
in that error, with no catch-and-retry of later cycles. -/
theorem sensor_error_terminates_loop (temp_fan : List (Int × Int))
    (hne : temp_fan ≠ []) :
    ∀ (k : Nat) (readings : Nat → Option Int × Option Int) (e : String),
    get_temp_fan_speed (readings k).1 (readings k).2 = .error e →
    (∀ j, j < k → ∃ p, get_temp_fan_speed (readings j).1 (readings j).2 = .ok p) →
    ∀ fuel, k < fuel → main_loop temp_fan readings fuel = .error e := by
  intro k
  induction k with
  | zero =>
    intro readings e hk _ fuel hf
    cases fuel with
    | zero => omega
    | succ f => simp [main_loop, hk]
  | succ k ih =>
    intro readings e hk hok fuel hf
    cases fuel with
    | zero => omega
    | succ f =>
      obtain ⟨p, hp⟩ := hok 0 (Nat.succ_pos k)
      obtain ⟨t0, f0⟩ := p
      have hc : (compute_fan_speed t0 temp_fan).isSome = true := by
        rw [compute_fan_speed_eq t0 temp_fan hne]
        rfl
      obtain ⟨computed, hcomp⟩ := Option.isSome_iff_exists.mp hc
      have hrec := ih (fun n => readings (n + 1)) e hk
        (fun j hj => hok (j + 1) (by omega)) f (by omega)
      simp [main_loop, hp, hcomp, hrec, Except.map]

/-- A sensor-result stream whose first cycle reads fine and whose second cycle
has no temperature match. -/
def wReadings (n : Nat) : Option Int × Option Int :=
  if n = 0 then (some 60, some 40) else (none, some 40)

/-- Witness for C9: a three-cycle run over `wReadings` dies with the
temperature parse error raised in cycle 1. -/
theorem sensor_error_terminates_loop_witness :
    main_loop [((40 : Int), (30 : Int))] wReadings 3 = .error "Could not parse temperature." :=
  sensor_error_terminates_loop [(40, 30)] (by decide) 1 wReadings
    "Could not parse temperature." rfl
    (fun j hj => ⟨(60, 40), by
      have hj0 : j = 0 := Nat.lt_one_iff.mp hj
      subst hj0
      rfl⟩)
    3 (by omega)
